import Mathlib

/-!
# nyasabox service worker: cache-first request interception

A shallow embedding of `src/nyasabox/static/icon/service-worker.js`.

The worker registers three listeners (`install`, `fetch`, `activate`) that talk
to two host collaborators: the origin's cache storage (`caches`) and the
network (`fetch`).  Both collaborators are made explicit here:

* the cache storage is a value of type `CacheStorage`, threaded through the
  listeners (explicit state passing);
* the network is a function `Network`, and every listener that may reach the
  network reports the requests it fetched.

Promises are modelled by their settled value: a rejected promise is a
constructor of the result type, a promise that is not awaited by the listener
(the store after a successful fetch) is returned as a pending operation that
`settle` applies afterwards.
-/

namespace ServiceWorker

/-! ## Data model -/

/-- A request descriptor: its method and its URL.  The worker never reads the
headers of a request, and the host consults them only to match a response that
carries a `Vary` header against a request with other header values, which does
not arise between a request and itself; they are left out. -/
structure Request where
  method : String
  url : String
  deriving DecidableEq, Repr

/-- The request that the host builds from a bare URL, as for the entries of the
preload list and for `caches.match('/')`: a GET of that URL. -/
def Request.get (url : String) : Request :=
  { method := "GET", url := url }

/-- A response snapshot: the HTTP status, the response type as the host reports
it (`"basic"`, `"cors"`, `"opaque"`, ...), the field names listed in its `Vary`
header and the body. -/
structure Response where
  status : Nat
  type : String
  vary : List String
  body : String
  deriving DecidableEq, Repr

/-- The copy made by `response.clone()`: an independent response with the same
status, type and body. -/
def Response.clone (r : Response) : Response :=
  { status := r.status, type := r.type, vary := r.vary, body := r.body }

/-- The host's `response.ok`: the status lies in the range 200 to 299. -/
def Response.ok (r : Response) : Bool :=
  decide (200 ≤ r.status) && decide (r.status ≤ 299)

/-- How a `fetch(request)` promise settles: it rejects (network error) or it
resolves with a response; the listener also guards against a missing one. -/
inductive FetchResult where
  | rejected
  | resolved (response : Option Response)
  deriving DecidableEq, Repr

/-- The network collaborator: the settled result of `fetch` for each request. -/
abbrev Network := Request → FetchResult

/-- One cache: its entries in insertion order. -/
abbrev Cache := List (Request × Response)

/-- The origin's cache storage: the named caches in creation order. -/
abbrev CacheStorage := List (String × Cache)

/-! ## Constants of the worker (lines 1-15)

The listeners below take the cache name as their first argument, so that the
results also cover a later version of the worker, which differs in the value of
this constant only; the worker of the source is their instance at `CACHE_NAME`.
-/

def CACHE_NAME : String := "nyasabox-cache-v1"

def urlsToCache : List String :=
  [ "/",
    "/static/troy.woff2",
    "/static/log.png",
    "/static/icon/favicon-16x16.png",
    "/static/icon/favicon-32x32.png",
    "/static/icon/apple-touch-icon.png",
    "/static/icon/android-chrome-192x192.png",
    "/static/icon/android-chrome-512x512.png",
    "/static/icon/images/default-cover.png",
    "https://fonts.googleapis.com/icon?family=Material+Icons",
    "https://cdnjs.cloudflare.com/ajax/libs/font-awesome/5.15.4/css/all.min.css",
    "https://fonts.googleapis.com/css2?family=Inter:wght@300;400;500;600;700;800&display=swap" ]

/-! ## Host cache operations used by the worker -/

/-- The host's `cache.match(request)`: the stored response of the entry keyed by
`request`, if there is one; a request whose method is not GET matches nothing. -/
def cacheMatch : Cache → Request → Option Response
  | [], _ => none
  | (k, r) :: rest, req =>
    if req.method = "GET" ∧ k = req then some r else cacheMatch rest req

/-- Whether the host accepts `cache.put(request, response)`: it rejects a request
whose method is not GET, a response of status 206 and a response whose `Vary`
header lists `*`.  (It also rejects a URL whose scheme is not http or https;
the requests handed to a worker all have such a scheme.) -/
def putAccepted (req : Request) (resp : Response) : Bool :=
  decide (req.method = "GET") && decide (resp.status ≠ 206) && decide ("*" ∉ resp.vary)

/-- The store performed by a `cache.put(request, response)` that the host
accepts: an entry already keyed by `request` is removed and the new pair is
appended. -/
def cachePut (c : Cache) (req : Request) (resp : Response) : Cache :=
  c.filter (fun e => decide (e.1 ≠ req)) ++ [(req, resp)]

/-- The host's `caches.match(request)`: every cache of the storage is queried in
creation order and the first match wins. -/
def cachesMatch : CacheStorage → Request → Option Response
  | [], _ => none
  | (_, c) :: rest, req =>
    match cacheMatch c req with
    | some r => some r
    | none => cachesMatch rest req

/-- The host's `caches.has(name)`. -/
def cachesHas (st : CacheStorage) (name : String) : Bool :=
  st.any (fun e => decide (e.1 = name))

/-- The host's `caches.keys()`: the names of the caches in creation order. -/
def cachesKeys (st : CacheStorage) : List String :=
  st.map (fun e => e.1)

/-- The host's `caches.delete(name)`. -/
def cachesDelete (st : CacheStorage) (name : String) : CacheStorage :=
  st.filter (fun e => decide (e.1 ≠ name))

/-- The storage effect of `caches.open(name)`: the cache is created, empty and
last in creation order, when no cache has that name. -/
def cachesOpen (st : CacheStorage) (name : String) : CacheStorage :=
  if cachesHas st name then st else st ++ [(name, [])]

/-- The entries of the cache called `name`; a cache that does not exist has
none. -/
def entriesOf : CacheStorage → String → Cache
  | [], _ => []
  | (n, c) :: rest, name => if n = name then c else entriesOf rest name

/-- Replace the entries of the cache called `name` by `f` of them. -/
def updateCache (name : String) (f : Cache → Cache) : CacheStorage → CacheStorage
  | [] => []
  | (n, c) :: rest =>
    (n, if n = name then f c else c) :: updateCache name f rest

/-- The effect of `caches.open(name).then(cache => cache.put(request, response))`
when nobody handles its rejection: the cache is opened, and the pair is stored
only when the host accepts the put. -/
def openAndPut (st : CacheStorage) (name : String) (req : Request) (resp : Response) :
    CacheStorage :=
  if putAccepted req resp then
    updateCache name (fun c => cachePut c req resp) (cachesOpen st name)
  else
    cachesOpen st name

/-- The fetch phase of the host's `cache.addAll(urls)`: every URL is fetched with
a GET, and the operation rejects when a fetch rejects, a response is not `ok`
or a response is one that `cache.put` does not accept. -/
def fetchAll (net : Network) : List String → Option (List (Request × Response))
  | [] => some []
  | u :: us =>
    match net (Request.get u) with
    | FetchResult.resolved (some r) =>
      if r.ok && putAccepted (Request.get u) r then
        (fetchAll net us).map (fun ps => (Request.get u, r) :: ps)
      else none
    | _ => none

/-- The store phase of the host's `cache.addAll(urls)`: the fetched pairs are put
in order. -/
def putAll (c : Cache) (ps : List (Request × Response)) : Cache :=
  ps.foldl (fun acc p => cachePut acc p.1 p.2) c

/-- The host's `cache.addAll(urls)`: `none` when it rejects (nothing is stored),
otherwise the cache with every fetched pair stored. -/
def cacheAddAll (net : Network) (c : Cache) (urls : List String) : Option Cache :=
  (fetchAll net urls).map (putAll c)

/-! ## The `install` listener (lines 17-25) -/

/-- What the promise handed to `event.waitUntil` settled to, and the storage it
left behind. -/
structure InstallOutcome where
  succeeded : Bool
  storage : CacheStorage
  deriving DecidableEq, Repr

/-- The `install` listener: open `cacheName` and `addAll` the preload list. -/
def installListener (cacheName : String) (net : Network) (st : CacheStorage) :
    InstallOutcome :=
  let opened := cachesOpen st cacheName
  match cacheAddAll net (entriesOf opened cacheName) urlsToCache with
  | some c => { succeeded := true, storage := updateCache cacheName (fun _ => c) opened }
  | none => { succeeded := false, storage := opened }

/-! ## The `fetch` listener (lines 27-55) -/

/-- The store that the listener starts without awaiting it: the cache name, the
request and the cloned response. -/
structure PendingPut where
  cacheName : String
  request : Request
  response : Response
  deriving DecidableEq, Repr

/-- What one run of the `fetch` listener did: the response handed to
`event.respondWith` (`none` when there is no response), the requests sent to the
network, in order, and the store left pending. -/
structure FetchOutcome where
  response : Option Response
  networkCalls : List Request
  pending : Option PendingPut
  deriving DecidableEq, Repr

/-- The `fetch` listener. -/
def fetchListener (cacheName : String) (net : Network) (st : CacheStorage)
    (request : Request) : FetchOutcome :=
  match cachesMatch st request with
  | some response =>
    -- Return cached response if available
    { response := some response, networkCalls := [], pending := none }
  | none =>
    -- Fetch from network if not cached
    match net request with
    | FetchResult.resolved none =>
      { response := none, networkCalls := [request], pending := none }
    | FetchResult.resolved (some response) =>
      if response.status ≠ 200 ∨ response.type ≠ "basic" then
        { response := some response, networkCalls := [request], pending := none }
      else
        { response := some response, networkCalls := [request],
          pending := some { cacheName := cacheName, request := request,
                            response := response.clone } }
    | FetchResult.rejected =>
      { response := cachesMatch st (Request.get "/"), networkCalls := [request],
        pending := none }

/-- The storage once the pending store of a `fetch` run, if any, has been
applied. -/
def settle (st : CacheStorage) (out : FetchOutcome) : CacheStorage :=
  match out.pending with
  | some p => openAndPut st p.cacheName p.request p.response
  | none => st

/-! ## The `activate` listener (lines 57-70) -/

/-- The `activate` listener: every cache whose name is not in the whitelist is
deleted. -/
def activateListener (cacheName : String) (st : CacheStorage) : CacheStorage :=
  let cacheWhitelist := [cacheName]
  (cachesKeys st).foldl
    (fun s name => if ¬ (name ∈ cacheWhitelist) then cachesDelete s name else s) st


/-! ## Sample collaborators and storages -/

/-- A same-origin page served with status 200. -/
def freshResponse : Response :=
  { status := 200, type := "basic", vary := [], body := "<html>fresh</html>" }

/-- An older copy of a same-origin page. -/
def staleResponse : Response :=
  { status := 200, type := "basic", vary := [], body := "<html>stale</html>" }

/-- A same-origin page served with status 200 and the header `Vary: *`. -/
def varyStarResponse : Response :=
  { status := 200, type := "basic", vary := ["*"], body := "<html>varies</html>" }

/-- What a no-cors fetch of a cross-origin resource resolves with. -/
def crossOriginResponse : Response :=
  { status := 0, type := "opaque", vary := [], body := "" }

/-- A form submission: a POST to `/submit`. -/
def postSubmit : Request := { method := "POST", url := "/submit" }

/-- A network that answers every request with `freshResponse`. -/
def onlineNet : Network := fun _ => FetchResult.resolved (some freshResponse)

/-- A network that answers every request with `varyStarResponse`. -/
def varyStarNet : Network := fun _ => FetchResult.resolved (some varyStarResponse)

/-- A network that answers every request with `crossOriginResponse`. -/
def crossOriginNet : Network := fun _ => FetchResult.resolved (some crossOriginResponse)

/-- A network on which every fetch rejects. -/
def offlineNet : Network := fun _ => FetchResult.rejected

/-- A network on which only the fetch of the font file rejects. -/
def flakyNet : Network := fun req =>
  if req.url = "/static/troy.woff2" then FetchResult.rejected
  else FetchResult.resolved (some freshResponse)

/-- A storage in which an older cache, created first, and the worker's cache both
hold the root page. -/
def shadowedStorage : CacheStorage :=
  [ ("nyasabox-cache-v0", [(Request.get "/", staleResponse)]),
    (CACHE_NAME, [(Request.get "/", freshResponse)]) ]

/-- A storage in which only an older cache holds `/page`. -/
def staleOnlyStorage : CacheStorage :=
  [ ("nyasabox-cache-v0", [(Request.get "/page", staleResponse)]),
    (CACHE_NAME, [(Request.get "/", freshResponse)]) ]

/-- The storage of an origin upgraded from version 1 to version 2, before the
activation sweep. -/
def upgradeStorage : CacheStorage :=
  [ ("nyasabox-cache-v1", [(Request.get "/", staleResponse)]),
    ("nyasabox-cache-v2",
      [(Request.get "/", freshResponse), (Request.get "/static/log.png", freshResponse)]) ]

/-! ## Facts about the host cache operations -/

theorem cacheMatch_append (a b : Cache) (req : Request) :
    cacheMatch (a ++ b) req =
      match cacheMatch a req with
      | some r => some r
      | none => cacheMatch b req := by
  induction a with
  | nil => simp [cacheMatch]
  | cons e rest ih =>
    obtain ⟨k, r⟩ := e
    by_cases h : req.method = "GET" ∧ k = req
    · rw [List.cons_append]
      simp only [cacheMatch, if_pos h]
    · rw [List.cons_append]
      simp only [cacheMatch, if_neg h]
      exact ih

theorem cacheMatch_filter_self (c : Cache) (req : Request) :
    cacheMatch (c.filter (fun e => decide (e.1 ≠ req))) req = none := by
  induction c with
  | nil => simp [cacheMatch]
  | cons e rest ih =>
    obtain ⟨k, r⟩ := e
    by_cases h : k = req
    · rw [List.filter_cons_of_neg (by simp [h])]
      exact ih
    · have hc : ¬ (req.method = "GET" ∧ k = req) := fun hh => h hh.2
      rw [List.filter_cons_of_pos (by simp [h])]
      simp only [cacheMatch, if_neg hc]
      exact ih

theorem cacheMatch_cachePut_self (c : Cache) (req : Request) (resp : Response)
    (hget : req.method = "GET") :
    cacheMatch (cachePut c req resp) req = some resp := by
  unfold cachePut
  rw [cacheMatch_append, cacheMatch_filter_self]
  simp [cacheMatch, hget]

theorem cacheMatch_eq_none_of_not_get (c : Cache) (req : Request)
    (hm : req.method ≠ "GET") : cacheMatch c req = none := by
  induction c with
  | nil => rfl
  | cons e rest ih =>
    obtain ⟨k, r⟩ := e
    have hc : ¬ (req.method = "GET" ∧ k = req) := fun hh => hm hh.1
    simp only [cacheMatch, if_neg hc, ih]

theorem cachesMatch_eq_none_iff (st : CacheStorage) (req : Request) :
    cachesMatch st req = none ↔ ∀ e ∈ st, cacheMatch e.2 req = none := by
  induction st with
  | nil => simp [cachesMatch]
  | cons e rest ih =>
    obtain ⟨n, c⟩ := e
    cases hc : cacheMatch c req with
    | none => simp [cachesMatch, hc, ih]
    | some r => simp [cachesMatch, hc]

theorem cachesMatch_append_of_miss (pre post : CacheStorage) (req : Request)
    (hpre : ∀ e ∈ pre, cacheMatch e.2 req = none) :
    cachesMatch (pre ++ post) req = cachesMatch post req := by
  induction pre with
  | nil => rfl
  | cons e rest ih =>
    obtain ⟨n, c⟩ := e
    have hc : cacheMatch c req = none := hpre (n, c) (List.mem_cons_self _ _)
    have hrest : ∀ e ∈ rest, cacheMatch e.2 req = none :=
      fun e he => hpre e (List.mem_cons_of_mem _ he)
    simp [cachesMatch, hc, ih hrest]

theorem cachesHas_cons (n : String) (c : Cache) (rest : CacheStorage) (name : String) :
    cachesHas ((n, c) :: rest) name = (decide (n = name) || cachesHas rest name) := by
  simp [cachesHas]

theorem cachesHas_append_self (st : CacheStorage) (name : String) (c : Cache) :
    cachesHas (st ++ [(name, c)]) name = true := by
  simp [cachesHas]

theorem cachesHas_cachesOpen (st : CacheStorage) (name : String) :
    cachesHas (cachesOpen st name) name = true := by
  unfold cachesOpen
  by_cases h : cachesHas st name = true
  · rw [if_pos h]
    exact h
  · rw [if_neg h]
    exact cachesHas_append_self st name []

theorem cachesOpen_of_has (st : CacheStorage) (name : String)
    (h : cachesHas st name = true) : cachesOpen st name = st := by
  simp [cachesOpen, h]

theorem entriesOf_append_empty (st : CacheStorage) (name other : String) :
    entriesOf (st ++ [(name, [])]) other = entriesOf st other := by
  induction st with
  | nil => simp [entriesOf]
  | cons e rest ih =>
    obtain ⟨n, c⟩ := e
    by_cases h : n = other
    · simp [entriesOf, h]
    · simp [entriesOf, h, ih]

theorem entriesOf_cachesOpen (st : CacheStorage) (name other : String) :
    entriesOf (cachesOpen st name) other = entriesOf st other := by
  unfold cachesOpen
  by_cases h : cachesHas st name = true
  · rw [if_pos h]
  · rw [if_neg h]
    exact entriesOf_append_empty st name other

theorem cachesMatch_append_empty (st : CacheStorage) (name : String) (req : Request) :
    cachesMatch (st ++ [(name, [])]) req = cachesMatch st req := by
  induction st with
  | nil => simp [cachesMatch, cacheMatch]
  | cons e rest ih =>
    obtain ⟨n, c⟩ := e
    cases hc : cacheMatch c req with
    | none => simpa [cachesMatch, hc] using ih
    | some r => simp [cachesMatch, hc]

theorem cachesMatch_cachesOpen (st : CacheStorage) (name : String) (req : Request) :
    cachesMatch (cachesOpen st name) req = cachesMatch st req := by
  unfold cachesOpen
  by_cases h : cachesHas st name = true
  · rw [if_pos h]
  · rw [if_neg h]
    exact cachesMatch_append_empty st name req

theorem cachesHas_updateCache (st : CacheStorage) (name other : String) (f : Cache → Cache) :
    cachesHas (updateCache name f st) other = cachesHas st other := by
  induction st with
  | nil => rfl
  | cons e rest ih =>
    obtain ⟨n, c⟩ := e
    simp only [updateCache, cachesHas_cons, ih]

theorem entriesOf_updateCache_self (st : CacheStorage) (name : String) (f : Cache → Cache)
    (h : cachesHas st name = true) :
    entriesOf (updateCache name f st) name = f (entriesOf st name) := by
  induction st with
  | nil => simp [cachesHas] at h
  | cons e rest ih =>
    obtain ⟨n, c⟩ := e
    by_cases hn : n = name
    · simp only [updateCache, entriesOf, if_pos hn]
    · have hrest : cachesHas rest name = true := by
        simpa [cachesHas_cons, hn] using h
      simp only [updateCache, entriesOf, if_neg hn, ih hrest]

theorem entriesOf_updateCache_other (st : CacheStorage) (name other : String)
    (f : Cache → Cache) (h : other ≠ name) :
    entriesOf (updateCache name f st) other = entriesOf st other := by
  induction st with
  | nil => rfl
  | cons e rest ih =>
    obtain ⟨n, c⟩ := e
    by_cases hn : n = name
    · have hno : ¬ n = other := fun hh => h (hh.symm.trans hn)
      simp only [updateCache, entriesOf, if_neg hno, ih]
    · simp only [updateCache, entriesOf, if_neg hn, ih]

theorem cachesMatch_updateCache_put (st : CacheStorage) (name : String) (req : Request)
    (resp : Response) (hget : req.method = "GET") (hmiss : cachesMatch st req = none)
    (h : cachesHas st name = true) :
    cachesMatch (updateCache name (fun c => cachePut c req resp) st) req = some resp := by
  induction st with
  | nil => simp [cachesHas] at h
  | cons e rest ih =>
    obtain ⟨n, c⟩ := e
    by_cases hn : n = name
    · simp only [updateCache, cachesMatch, if_pos hn, cacheMatch_cachePut_self c req resp hget]
    · have hrest : cachesHas rest name = true := by
        simpa [cachesHas_cons, hn] using h
      cases hc : cacheMatch c req with
      | none =>
        have hm : cachesMatch rest req = none := by
          simpa [cachesMatch, hc] using hmiss
        simp only [updateCache, cachesMatch, if_neg hn, hc, ih hm hrest]
      | some r => simp [cachesMatch, hc] at hmiss

theorem cacheMatch_filter_of_ne (c : Cache) (k req : Request) (h : req ≠ k) :
    cacheMatch (c.filter (fun e => decide (e.1 ≠ k))) req = cacheMatch c req := by
  induction c with
  | nil => rfl
  | cons e rest ih =>
    obtain ⟨k2, r⟩ := e
    by_cases hk : k2 = k
    · have hne : ¬ (req.method = "GET" ∧ k2 = req) := fun hh => h (hh.2.symm.trans hk)
      rw [List.filter_cons_of_neg (by simp [hk])]
      simp only [cacheMatch, if_neg hne]
      exact ih
    · rw [List.filter_cons_of_pos (by simp [hk])]
      simp only [cacheMatch, ih]

theorem cacheMatch_cachePut_of_ne (c : Cache) (k req : Request) (resp : Response)
    (h : req ≠ k) : cacheMatch (cachePut c k resp) req = cacheMatch c req := by
  have hk : ¬ (req.method = "GET" ∧ k = req) := fun hh => h hh.2.symm
  unfold cachePut
  rw [cacheMatch_append, cacheMatch_filter_of_ne c k req h]
  cases cacheMatch c req with
  | none => simp only [cacheMatch, if_neg hk]
  | some r => rfl

/-! ## Facts about `addAll` -/

theorem putAll_cons (c : Cache) (p : Request × Response) (ps : List (Request × Response)) :
    putAll c (p :: ps) = putAll (cachePut c p.1 p.2) ps := rfl

theorem cacheMatch_putAll_of_not_mem (ps : List (Request × Response)) (c : Cache)
    (req : Request) (h : req ∉ ps.map Prod.fst) :
    cacheMatch (putAll c ps) req = cacheMatch c req := by
  induction ps generalizing c with
  | nil => rfl
  | cons p rest ih =>
    have hp : req ≠ p.1 := fun hh => h (by simp [hh])
    have hrest : req ∉ rest.map Prod.fst := fun hh => h (by simp at hh ⊢; exact Or.inr hh)
    rw [putAll_cons, ih _ hrest, cacheMatch_cachePut_of_ne c p.1 req p.2 hp]

theorem cacheMatch_putAll_of_mem (net : Network) (ps : List (Request × Response)) (c : Cache)
    (req : Request) (resp : Response) (hget : req.method = "GET")
    (hnet : ∀ p ∈ ps, net p.1 = FetchResult.resolved (some p.2))
    (hmem : (req, resp) ∈ ps) :
    cacheMatch (putAll c ps) req = some resp := by
  induction ps generalizing c with
  | nil => simp at hmem
  | cons p rest ih =>
    have hrestnet : ∀ q ∈ rest, net q.1 = FetchResult.resolved (some q.2) :=
      fun q hq => hnet q (List.mem_cons_of_mem _ hq)
    rw [putAll_cons]
    by_cases hlater : req ∈ rest.map Prod.fst
    · obtain ⟨q, hq, hqk⟩ := List.mem_map.mp hlater
      have h1 : net req = FetchResult.resolved (some q.2) := hqk ▸ hrestnet q hq
      have h2 : net req = FetchResult.resolved (some resp) :=
        hnet (req, resp) hmem
      have hsame : q.2 = resp := by
        rw [h1] at h2
        injection h2 with h3
        injection h3
      have hq2 : (req, resp) ∈ rest := by
        have : q = (req, resp) := Prod.ext hqk hsame
        exact this ▸ hq
      exact ih _ hrestnet hq2
    · have hhead : (req, resp) = p := by
        rcases List.mem_cons.mp hmem with h | h
        · exact h
        · exact absurd (List.mem_map.mpr ⟨(req, resp), h, rfl⟩) hlater
      rw [cacheMatch_putAll_of_not_mem rest _ req hlater, ← hhead]
      exact cacheMatch_cachePut_self c req resp hget

theorem putAll_eq_of_nodup (ps : List (Request × Response)) (c : Cache)
    (hnd : (ps.map Prod.fst).Nodup) :
    putAll c ps = c.filter (fun e => decide (e.1 ∉ ps.map Prod.fst)) ++ ps := by
  induction ps generalizing c with
  | nil => simp [putAll]
  | cons p rest ih =>
    rw [List.map_cons, List.nodup_cons] at hnd
    rw [putAll_cons, ih _ hnd.2, cachePut, List.filter_append, List.filter_filter]
    have hp : List.filter (fun e => decide (e.1 ∉ rest.map Prod.fst)) [(p.1, p.2)] = [p] := by
      rw [List.filter_cons_of_pos (by simpa using hnd.1)]
      rfl
    rw [hp, List.append_assoc]
    congr 1
    apply List.filter_congr
    intro e _
    by_cases h1 : e.1 = p.1 <;> by_cases h2 : e.1 ∈ rest.map Prod.fst <;> simp [h1, h2]

theorem putAll_putAll_of_nodup (ps : List (Request × Response)) (c : Cache)
    (hnd : (ps.map Prod.fst).Nodup) :
    putAll (putAll c ps) ps = putAll c ps := by
  rw [putAll_eq_of_nodup ps (putAll c ps) hnd, putAll_eq_of_nodup ps c hnd,
    List.filter_append, List.filter_filter]
  have hps : List.filter (fun e => decide (e.1 ∉ ps.map Prod.fst)) ps = [] := by
    rw [List.filter_eq_nil_iff]
    intro e he
    have hk : e.1 ∈ ps.map Prod.fst := List.mem_map.mpr ⟨e, he, rfl⟩
    simp only [hk, not_true_eq_false, decide_False, Bool.false_eq_true, not_false_eq_true]
  rw [hps, List.append_nil]
  congr 1
  apply List.filter_congr
  intro e _
  simp

theorem fetchAll_keys (net : Network) (urls : List String) (ps : List (Request × Response))
    (h : fetchAll net urls = some ps) : ps.map Prod.fst = urls.map Request.get := by
  induction urls generalizing ps with
  | nil =>
    simp only [fetchAll, Option.some.injEq] at h
    rw [← h]
    rfl
  | cons u us ih =>
    simp only [fetchAll] at h
    split at h
    · split at h
      · cases hrest : fetchAll net us with
        | none => simp [hrest] at h
        | some qs =>
          simp only [hrest, Option.map_some', Option.some.injEq] at h
          rw [← h, List.map_cons, List.map_cons, ih qs hrest]
      · exact absurd h (by simp)
    · exact absurd h (by simp)

theorem fetchAll_sound (net : Network) (urls : List String) (ps : List (Request × Response))
    (h : fetchAll net urls = some ps) :
    ∀ p ∈ ps, net p.1 = FetchResult.resolved (some p.2) := by
  induction urls generalizing ps with
  | nil =>
    simp only [fetchAll, Option.some.injEq] at h
    rw [← h]
    simp
  | cons u us ih =>
    simp only [fetchAll] at h
    split at h
    · rename_i r hnet
      split at h
      · cases hrest : fetchAll net us with
        | none => simp [hrest] at h
        | some qs =>
          simp only [hrest, Option.map_some', Option.some.injEq] at h
          rw [← h]
          intro p hp
          rcases List.mem_cons.mp hp with hp | hp
          · rw [hp]
            exact hnet
          · exact ih qs hrest p hp
      · exact absurd h (by simp)
    · exact absurd h (by simp)

theorem fetchAll_none_of_rejected (net : Network) (urls : List String) (u : String)
    (hu : u ∈ urls) (hrej : net (Request.get u) = FetchResult.rejected) :
    fetchAll net urls = none := by
  cases h : fetchAll net urls with
  | none => rfl
  | some ps =>
    have hkeys := fetchAll_keys net urls ps h
    have hu2 : Request.get u ∈ ps.map Prod.fst := by
      rw [hkeys]
      exact List.mem_map.mpr ⟨u, hu, rfl⟩
    obtain ⟨p, hp, hpk⟩ := List.mem_map.mp hu2
    have := fetchAll_sound net urls ps h p hp
    rw [hpk, hrej] at this
    exact absurd this (by simp)

theorem Request.get_injective : Function.Injective Request.get := by
  intro a b h
  exact congrArg Request.url h

/-! ## Facts about the activation sweep -/

theorem activate_fold (cacheName : String) (names : List String) (s : CacheStorage) :
    names.foldl
      (fun s name => if ¬ (name ∈ [cacheName]) then cachesDelete s name else s) s =
    s.filter (fun e => decide (e.1 = cacheName ∨ e.1 ∉ names)) := by
  induction names generalizing s with
  | nil => simp
  | cons n rest ih =>
    rw [List.foldl_cons, ih]
    by_cases hn : n = cacheName
    · have hmem : n ∈ [cacheName] := by simp [hn]
      rw [if_neg (not_not.mpr hmem)]
      apply List.filter_congr
      intro e _
      by_cases he : e.1 = cacheName
      · simp [he]
      · have : ¬ e.1 = n := fun hh => he (hh.trans hn)
        simp [he, this]
    · have hmem : ¬ n ∈ [cacheName] := by simp [hn]
      rw [if_pos hmem, cachesDelete, List.filter_filter]
      apply List.filter_congr
      intro e _
      by_cases he : e.1 = cacheName
      · have : ¬ e.1 = n := fun hh => hn (hh.symm.trans he)
        have hcn : ¬ cacheName = n := fun hh => hn hh.symm
        simp [he, hcn]
      · by_cases hen : e.1 = n
        · simp [he, hen, hn]
        · simp [he, hen]

theorem activateListener_eq_filter (cacheName : String) (st : CacheStorage) :
    activateListener cacheName st = st.filter (fun e => decide (e.1 = cacheName)) := by
  unfold activateListener
  rw [activate_fold]
  apply List.filter_congr
  intro e he
  have : e.1 ∈ cachesKeys st := List.mem_map.mpr ⟨e, he, rfl⟩
  simp [this]

theorem entriesOf_filter_self (st : CacheStorage) (name : String) :
    entriesOf (st.filter (fun e => decide (e.1 = name))) name = entriesOf st name := by
  induction st with
  | nil => rfl
  | cons e rest ih =>
    obtain ⟨n, c⟩ := e
    by_cases h : n = name
    · rw [List.filter_cons_of_pos (by simp [h])]
      simp only [entriesOf, if_pos h]
    · rw [List.filter_cons_of_neg (by simp [h])]
      simp only [entriesOf, if_neg h, ih]

theorem cachesHas_filter_self (st : CacheStorage) (name : String) :
    cachesHas (st.filter (fun e => decide (e.1 = name))) name = cachesHas st name := by
  induction st with
  | nil => rfl
  | cons e rest ih =>
    obtain ⟨n, c⟩ := e
    by_cases h : n = name
    · rw [List.filter_cons_of_pos (by simp [h])]
      simp only [cachesHas_cons, ih]
    · rw [List.filter_cons_of_neg (by simp [h])]
      simp only [cachesHas_cons, ih, h, decide_False, Bool.false_or]

/-! ## Facts about the listeners -/

theorem Response.clone_eq (r : Response) : r.clone = r := by
  cases r
  rfl

theorem installListener_of_fetched (cacheName : String) (net : Network) (st : CacheStorage)
    (ps : List (Request × Response)) (h : fetchAll net urlsToCache = some ps) :
    installListener cacheName net st =
      { succeeded := true,
        storage := updateCache cacheName
          (fun _ => putAll (entriesOf (cachesOpen st cacheName) cacheName) ps)
          (cachesOpen st cacheName) } := by
  simp [installListener, cacheAddAll, h]

theorem installListener_of_rejected (cacheName : String) (net : Network) (st : CacheStorage)
    (h : fetchAll net urlsToCache = none) :
    installListener cacheName net st =
      { succeeded := false, storage := cachesOpen st cacheName } := by
  simp [installListener, cacheAddAll, h]

theorem urlsToCache_nodup : urlsToCache.Nodup := by decide

theorem urlsToCache_requests_nodup : (urlsToCache.map Request.get).Nodup :=
  urlsToCache_nodup.map Request.get_injective

theorem updateCache_const_twice (name : String) (c : Cache) (st : CacheStorage) :
    updateCache name (fun _ => c) (updateCache name (fun _ => c) st) =
      updateCache name (fun _ => c) st := by
  induction st with
  | nil => rfl
  | cons e rest ih =>
    obtain ⟨n, c2⟩ := e
    by_cases h : n = name
    · simp only [updateCache, if_pos h, ih]
    · simp only [updateCache, if_neg h, ih]

theorem cachesKeys_activateListener (cacheName : String) (st : CacheStorage) :
    cachesKeys (activateListener cacheName st) =
      (cachesKeys st).filter (fun n => decide (n = cacheName)) := by
  rw [activateListener_eq_filter]
  induction st with
  | nil => rfl
  | cons e rest ih =>
    obtain ⟨n, c⟩ := e
    by_cases h : n = cacheName
    · simp only [cachesKeys] at ih ⊢
      rw [List.filter_cons_of_pos (by simp [h]), List.map_cons, List.map_cons,
        List.filter_cons_of_pos (by simp [h]), ih]
    · simp only [cachesKeys] at ih ⊢
      rw [List.filter_cons_of_neg (by simp [h]), List.map_cons,
        List.filter_cons_of_neg (by simp [h]), ih]

/-! ## The `fetch` listener: claims C1, C2, C3, C4 and C10 -/

/-- C1, as stated, fails: in `shadowedStorage` the worker's cache stores
`freshResponse` for the root page, yet the listener answers with the different
response `staleResponse` that the cache created earlier holds. -/
theorem fetchListener_hit_shadowed :
    cacheMatch (entriesOf shadowedStorage CACHE_NAME) (Request.get "/")
      = some freshResponse ∧
    (fetchListener CACHE_NAME onlineNet shadowedStorage (Request.get "/")).response
      = some staleResponse ∧
    staleResponse ≠ freshResponse := by
  decide

/-- C1, amended: when the worker's cache stores a response for `R`, the listener
makes no network call whatever the network would answer, leaves no store
pending and returns the response of the first cache of the storage that holds
`R`; when no cache created before the worker's cache holds an entry for `R`,
that is exactly the response stored in the worker's cache. -/
theorem fetchListener_hit (cacheName : String) (net : Network)
    (earlier later : CacheStorage) (c : Cache) (R : Request) (stored : Response)
    (hstored : cacheMatch c R = some stored) :
    (fetchListener cacheName net (earlier ++ (cacheName, c) :: later) R).networkCalls = [] ∧
    (fetchListener cacheName net (earlier ++ (cacheName, c) :: later) R).pending = none ∧
    (∃ r, cachesMatch (earlier ++ (cacheName, c) :: later) R = some r ∧
      (fetchListener cacheName net (earlier ++ (cacheName, c) :: later) R).response
        = some r) ∧
    ((∀ e ∈ earlier, cacheMatch e.2 R = none) →
      (fetchListener cacheName net (earlier ++ (cacheName, c) :: later) R).response
        = some stored) := by
  have hsome : ∃ r, cachesMatch (earlier ++ (cacheName, c) :: later) R = some r := by
    cases hm : cachesMatch (earlier ++ (cacheName, c) :: later) R with
    | some r => exact ⟨r, rfl⟩
    | none =>
      have hnone := (cachesMatch_eq_none_iff _ R).mp hm (cacheName, c)
        (List.mem_append_right _ (List.mem_cons_self _ _))
      rw [hstored] at hnone
      exact absurd hnone (by simp)
  obtain ⟨r, hr⟩ := hsome
  have hrun : fetchListener cacheName net (earlier ++ (cacheName, c) :: later) R =
      { response := some r, networkCalls := [], pending := none } := by
    simp only [fetchListener, hr]
  refine ⟨by rw [hrun], by rw [hrun], ⟨r, hr, by rw [hrun]⟩, ?_⟩
  intro hearlier
  have hm : cachesMatch (earlier ++ (cacheName, c) :: later) R = some stored := by
    rw [cachesMatch_append_of_miss earlier _ R hearlier]
    simp only [cachesMatch, hstored]
  rw [hrun, ← hm, hr]

/-- Witness of `fetchListener_hit`: offline, with the root page stored in the
worker's cache, not in the cache before it, and also in a cache created later. -/
theorem fetchListener_hit_witness :
    cacheMatch [(Request.get "/", freshResponse)] (Request.get "/") = some freshResponse ∧
    (∀ e ∈ [(("other", []) : String × Cache)], cacheMatch e.2 (Request.get "/") = none) ∧
    (fetchListener CACHE_NAME offlineNet
        ([("other", [])] ++ (CACHE_NAME, [(Request.get "/", freshResponse)]) ::
          [("later", [(Request.get "/", staleResponse)])]) (Request.get "/")).networkCalls
      = [] ∧
    (fetchListener CACHE_NAME offlineNet
        ([("other", [])] ++ (CACHE_NAME, [(Request.get "/", freshResponse)]) ::
          [("later", [(Request.get "/", staleResponse)])]) (Request.get "/")).response
      = some freshResponse :=
  have h := fetchListener_hit CACHE_NAME offlineNet [("other", [])]
    [("later", [(Request.get "/", staleResponse)])] [(Request.get "/", freshResponse)]
    (Request.get "/") freshResponse (by decide)
  ⟨by decide, by decide, h.1, h.2.2.2 (by decide)⟩

/-- C2, as stated, fails: a POST answered with status 200 and type `"basic"` is
returned, but the host rejects the put of a request that is not a GET, so once
the pending store has settled the worker's cache holds nothing for it and the
next run of the listener fetches again; so does a GET answered with the header
`Vary: *`. -/
theorem fetchListener_rejected_put_not_cached :
    cachesMatch [] postSubmit = none ∧
    onlineNet postSubmit = FetchResult.resolved (some freshResponse) ∧
    freshResponse.status = 200 ∧ freshResponse.type = "basic" ∧
    cacheMatch (entriesOf (settle [] (fetchListener CACHE_NAME onlineNet [] postSubmit))
      CACHE_NAME) postSubmit = none ∧
    (fetchListener CACHE_NAME onlineNet
      (settle [] (fetchListener CACHE_NAME onlineNet [] postSubmit)) postSubmit).networkCalls
      = [postSubmit] ∧
    varyStarResponse.status = 200 ∧ varyStarResponse.type = "basic" ∧
    (fetchListener CACHE_NAME varyStarNet
      (settle [] (fetchListener CACHE_NAME varyStarNet [] (Request.get "/feed")))
      (Request.get "/feed")).networkCalls = [Request.get "/feed"] := by
  decide

/-- C2, amended: for a request `R` that the lookup misses and whose fetch
resolves with a response of status 200 and type `"basic"`, the listener returns
that response after one network call.  When `R` is a GET and the response does
not carry `Vary: *`, then once the pending store is applied the worker's cache
holds the fetched response for `R`, and a further run of the listener for `R`
returns it without any network call, whatever the network would answer.
Otherwise the host rejects the store and `R` stays absent from the storage. -/
theorem fetchListener_miss_eligible (cacheName : String) (net : Network) (st : CacheStorage)
    (R : Request) (fetched : Response)
    (hmiss : cachesMatch st R = none)
    (hnet : net R = FetchResult.resolved (some fetched))
    (hstatus : fetched.status = 200) (htype : fetched.type = "basic") :
    (fetchListener cacheName net st R).response = some fetched ∧
    (fetchListener cacheName net st R).networkCalls = [R] ∧
    (R.method = "GET" → "*" ∉ fetched.vary →
      cacheMatch (entriesOf (settle st (fetchListener cacheName net st R)) cacheName) R
        = some fetched ∧
      ∀ net2 : Network,
        fetchListener cacheName net2 (settle st (fetchListener cacheName net st R)) R =
          { response := some fetched, networkCalls := [], pending := none }) ∧
    ((R.method ≠ "GET" ∨ "*" ∈ fetched.vary) →
      cachesMatch (settle st (fetchListener cacheName net st R)) R = none) := by
  have hrun : fetchListener cacheName net st R =
      { response := some fetched, networkCalls := [R],
        pending := some { cacheName := cacheName, request := R, response := fetched } } := by
    simp [fetchListener, hmiss, hnet, hstatus, htype, Response.clone_eq]
  have hsettle : settle st (fetchListener cacheName net st R) =
      openAndPut st cacheName R fetched := by
    rw [hrun]
    rfl
  have hopen : cachesHas (cachesOpen st cacheName) cacheName = true :=
    cachesHas_cachesOpen st cacheName
  have hmiss2 : cachesMatch (cachesOpen st cacheName) R = none := by
    rw [cachesMatch_cachesOpen]
    exact hmiss
  refine ⟨by rw [hrun], by rw [hrun], ?_, ?_⟩
  · intro hget hvary
    have hacc : putAccepted R fetched = true := by
      simp [putAccepted, hget, hstatus, hvary]
    have hstore : openAndPut st cacheName R fetched =
        updateCache cacheName (fun c => cachePut c R fetched) (cachesOpen st cacheName) := by
      simp only [openAndPut, hacc, if_true]
    have hlookup : cachesMatch (openAndPut st cacheName R fetched) R = some fetched := by
      rw [hstore]
      exact cachesMatch_updateCache_put _ cacheName R fetched hget hmiss2 hopen
    constructor
    · rw [hsettle, hstore, entriesOf_updateCache_self _ _ _ hopen]
      exact cacheMatch_cachePut_self _ R fetched hget
    · intro net2
      rw [hsettle]
      simp only [fetchListener, hlookup]
  · intro hrej
    have hacc : putAccepted R fetched = false := by
      rcases hrej with h | h
      · simp [putAccepted, h]
      · simp [putAccepted, h]
    rw [hsettle]
    simp only [openAndPut, hacc]
    exact hmiss2

/-- Witness of `fetchListener_miss_eligible`: the dashboard page is fetched with
an empty storage, stored, and then served while offline; the POST to `/submit`
is fetched and stays absent. -/
theorem fetchListener_miss_eligible_witness :
    cachesMatch [] (Request.get "/dashboard") = none ∧
    onlineNet (Request.get "/dashboard") = FetchResult.resolved (some freshResponse) ∧
    freshResponse.status = 200 ∧ freshResponse.type = "basic" ∧
    (Request.get "/dashboard").method = "GET" ∧ "*" ∉ freshResponse.vary ∧
    (fetchListener CACHE_NAME onlineNet [] (Request.get "/dashboard")).response
      = some freshResponse ∧
    fetchListener CACHE_NAME offlineNet
        (settle [] (fetchListener CACHE_NAME onlineNet [] (Request.get "/dashboard")))
        (Request.get "/dashboard") =
      { response := some freshResponse, networkCalls := [], pending := none } ∧
    (postSubmit.method ≠ "GET" ∨ "*" ∈ freshResponse.vary) ∧
    cachesMatch (settle [] (fetchListener CACHE_NAME onlineNet [] postSubmit)) postSubmit
      = none :=
  have h := fetchListener_miss_eligible CACHE_NAME onlineNet [] (Request.get "/dashboard")
    freshResponse (by decide) (by decide) (by decide) (by decide)
  have hpost := fetchListener_miss_eligible CACHE_NAME onlineNet [] postSubmit
    freshResponse (by decide) (by decide) (by decide) (by decide)
  ⟨by decide, by decide, by decide, by decide, by decide, by decide, h.1,
    (h.2.2.1 (by decide) (by decide)).2 offlineNet, by decide,
    hpost.2.2.2 (by decide)⟩

/-- C3: for a request `R` that the lookup misses and whose fetch resolves with an
ineligible response (none at all, a status other than 200, or a type other than
`"basic"`), the listener returns that response unchanged and starts no store:
the storage is exactly as it was and still has no entry for `R`. -/
theorem fetchListener_miss_ineligible (cacheName : String) (net : Network)
    (st : CacheStorage) (R : Request) (fetched : Option Response)
    (hmiss : cachesMatch st R = none)
    (hnet : net R = FetchResult.resolved fetched)
    (hinel : ∀ r, fetched = some r → r.status ≠ 200 ∨ r.type ≠ "basic") :
    (fetchListener cacheName net st R).response = fetched ∧
    (fetchListener cacheName net st R).pending = none ∧
    settle st (fetchListener cacheName net st R) = st ∧
    cachesMatch (settle st (fetchListener cacheName net st R)) R = none := by
  have hrun : fetchListener cacheName net st R =
      { response := fetched, networkCalls := [R], pending := none } := by
    cases fetched with
    | none => simp [fetchListener, hmiss, hnet]
    | some r =>
      have hr := hinel r rfl
      simp only [fetchListener, hmiss, hnet, if_pos hr]
  have hsettle : settle st (fetchListener cacheName net st R) = st := by
    rw [hrun]
    rfl
  refine ⟨by rw [hrun], by rw [hrun], hsettle, ?_⟩
  rw [hsettle]
  exact hmiss

/-- Witness of `fetchListener_miss_ineligible`: a cross-origin stylesheet that
resolves with status 0 and type `"opaque"` is returned and not stored. -/
theorem fetchListener_miss_ineligible_witness :
    cachesMatch shadowedStorage (Request.get "https://cdn.example/app.css") = none ∧
    crossOriginNet (Request.get "https://cdn.example/app.css")
      = FetchResult.resolved (some crossOriginResponse) ∧
    (∀ r, some crossOriginResponse = some r → r.status ≠ 200 ∨ r.type ≠ "basic") ∧
    (fetchListener CACHE_NAME crossOriginNet shadowedStorage
        (Request.get "https://cdn.example/app.css")).response = some crossOriginResponse ∧
    settle shadowedStorage (fetchListener CACHE_NAME crossOriginNet shadowedStorage
        (Request.get "https://cdn.example/app.css")) = shadowedStorage :=
  have hinel : ∀ r, some crossOriginResponse = some r → r.status ≠ 200 ∨ r.type ≠ "basic" := by
    intro r hr
    injection hr with hr
    subst hr
    decide
  have h := fetchListener_miss_ineligible CACHE_NAME crossOriginNet shadowedStorage
    (Request.get "https://cdn.example/app.css") (some crossOriginResponse)
    (by decide) (by decide) hinel
  ⟨by decide, by decide, hinel, h.1, h.2.2.1⟩

/-- C4: for a request `R` that the lookup misses and whose fetch rejects, the
listener returns what the storage holds for the root path `"/"`, whatever the
path of `R`; when nothing is held for `"/"` either, there is no response. -/
theorem fetchListener_offline (cacheName : String) (net : Network) (st : CacheStorage)
    (R : Request)
    (hmiss : cachesMatch st R = none)
    (hnet : net R = FetchResult.rejected) :
    (fetchListener cacheName net st R).response = cachesMatch st (Request.get "/") ∧
    (cachesMatch st (Request.get "/") = none →
      (fetchListener cacheName net st R).response = none) := by
  have hrun : (fetchListener cacheName net st R).response
      = cachesMatch st (Request.get "/") := by
    simp only [fetchListener, hmiss, hnet]
  exact ⟨hrun, fun h => hrun.trans h⟩

/-- Witness of `fetchListener_offline`: offline, `/dashboard` was never cached
and neither was `"/"`, so there is no response. -/
theorem fetchListener_offline_witness :
    cachesMatch [] (Request.get "/dashboard") = none ∧
    offlineNet (Request.get "/dashboard") = FetchResult.rejected ∧
    cachesMatch [] (Request.get "/") = none ∧
    (fetchListener CACHE_NAME offlineNet [] (Request.get "/dashboard")).response = none :=
  ⟨by decide, by decide, by decide,
    (fetchListener_offline CACHE_NAME offlineNet [] (Request.get "/dashboard")
      (by decide) (by decide)).2 (by decide)⟩

/-- C10, as stated, fails: in `staleOnlyStorage` the worker's cache has no entry
for `/page`, yet the listener sends nothing to the network and answers with the
entry of the older cache. -/
theorem fetchListener_stale_hit_skips_network :
    cacheMatch (entriesOf staleOnlyStorage CACHE_NAME) (Request.get "/page") = none ∧
    (fetchListener CACHE_NAME onlineNet staleOnlyStorage (Request.get "/page")).networkCalls
      = [] ∧
    (fetchListener CACHE_NAME onlineNet staleOnlyStorage (Request.get "/page")).response
      = some staleResponse := by
  decide

/-- C10, amended: the lookup is against every cache of the storage and precedes
any network access: when no cache at all holds an entry for `R` the listener
performs one live fetch, of `R`; when some cache holds one, current or not, it
performs none. -/
theorem fetchListener_lookup_then_network (cacheName : String) (net : Network)
    (st : CacheStorage) (R : Request) :
    ((∀ e ∈ st, cacheMatch e.2 R = none) →
      (fetchListener cacheName net st R).networkCalls = [R]) ∧
    ((∃ e ∈ st, cacheMatch e.2 R ≠ none) →
      (fetchListener cacheName net st R).networkCalls = []) := by
  constructor
  · intro hnone
    have hmiss : cachesMatch st R = none := (cachesMatch_eq_none_iff st R).mpr hnone
    cases hnet : net R with
    | rejected => simp only [fetchListener, hmiss, hnet]
    | resolved fetched =>
      cases fetched with
      | none => simp only [fetchListener, hmiss, hnet]
      | some r =>
        by_cases hr : r.status ≠ 200 ∨ r.type ≠ "basic"
        · simp only [fetchListener, hmiss, hnet, if_pos hr]
        · simp only [fetchListener, hmiss, hnet, if_neg hr]
  · intro hsome
    cases hm : cachesMatch st R with
    | none =>
      obtain ⟨e, he, hne⟩ := hsome
      exact absurd ((cachesMatch_eq_none_iff st R).mp hm e he) hne
    | some r => simp only [fetchListener, hm]

/-- Witness of `fetchListener_lookup_then_network`: `/dashboard` is in no cache
of `shadowedStorage` and is fetched; `/page` is in the older cache of
`staleOnlyStorage` and is not. -/
theorem fetchListener_lookup_then_network_witness :
    (∀ e ∈ shadowedStorage, cacheMatch e.2 (Request.get "/dashboard") = none) ∧
    (fetchListener CACHE_NAME onlineNet shadowedStorage
      (Request.get "/dashboard")).networkCalls = [Request.get "/dashboard"] ∧
    (∃ e ∈ staleOnlyStorage, cacheMatch e.2 (Request.get "/page") ≠ none) ∧
    (fetchListener CACHE_NAME offlineNet staleOnlyStorage
      (Request.get "/page")).networkCalls = [] :=
  ⟨by decide,
    (fetchListener_lookup_then_network CACHE_NAME onlineNet shadowedStorage
      (Request.get "/dashboard")).1 (by decide),
    by decide,
    (fetchListener_lookup_then_network CACHE_NAME offlineNet staleOnlyStorage
      (Request.get "/page")).2 (by decide)⟩

/-! ## The `activate` listener: claims C5 and C6 -/

/-- C5: after the activation sweep no cache whose name differs from the current
name exists any more, so a storage whose caches have distinct names is left
with at most one cache. -/
theorem activateListener_deletes_stale (cacheName : String) (st : CacheStorage) :
    (∀ name, name ≠ cacheName → cachesHas (activateListener cacheName st) name = false) ∧
    (∀ name ∈ cachesKeys (activateListener cacheName st), name = cacheName) ∧
    ((cachesKeys st).Nodup → (cachesKeys (activateListener cacheName st)).length ≤ 1) := by
  have hall : ∀ name ∈ cachesKeys (activateListener cacheName st), name = cacheName := by
    intro name hname
    rw [cachesKeys_activateListener, List.mem_filter] at hname
    simpa using hname.2
  refine ⟨?_, hall, ?_⟩
  · intro name hne
    cases hhas : cachesHas (activateListener cacheName st) name with
    | false => rfl
    | true =>
      simp only [cachesHas, List.any_eq_true, decide_eq_true_eq] at hhas
      obtain ⟨e, he, hen⟩ := hhas
      have : e.1 ∈ cachesKeys (activateListener cacheName st) :=
        List.mem_map.mpr ⟨e, he, rfl⟩
      exact absurd (hen ▸ hall e.1 this) hne
  · intro hnd
    have hnd2 : (cachesKeys (activateListener cacheName st)).Nodup := by
      rw [cachesKeys_activateListener]
      exact hnd.filter _
    have hcount : (cachesKeys (activateListener cacheName st)).count cacheName
        = (cachesKeys (activateListener cacheName st)).length :=
      List.count_eq_length.mpr (fun b hb => (hall b hb).symm)
    rw [← hcount]
    exact List.nodup_iff_count_le_one.mp hnd2 cacheName

/-- Witness of `activateListener_deletes_stale`: after an upgrade to
`nyasabox-cache-v2` the cache `nyasabox-cache-v1` is gone and one cache is
left. -/
theorem activateListener_deletes_stale_witness :
    "nyasabox-cache-v1" ≠ "nyasabox-cache-v2" ∧
    (cachesKeys upgradeStorage).Nodup ∧
    cachesHas (activateListener "nyasabox-cache-v2" upgradeStorage) "nyasabox-cache-v1"
      = false ∧
    (cachesKeys (activateListener "nyasabox-cache-v2" upgradeStorage)).length ≤ 1 :=
  have h := activateListener_deletes_stale "nyasabox-cache-v2" upgradeStorage
  ⟨by decide, by decide, h.1 "nyasabox-cache-v1" (by decide), h.2.2 (by decide)⟩

/-- C6: the activation sweep never deletes the current cache: a cache with the
current name that exists before the sweep exists after it with exactly the same
entries, so each of its entries is still retrievable. -/
theorem activateListener_keeps_current (cacheName : String) (st : CacheStorage)
    (hexists : cachesHas st cacheName = true) :
    cachesHas (activateListener cacheName st) cacheName = true ∧
    entriesOf (activateListener cacheName st) cacheName = entriesOf st cacheName ∧
    ∀ R, cacheMatch (entriesOf (activateListener cacheName st) cacheName) R =
      cacheMatch (entriesOf st cacheName) R := by
  have hentries : entriesOf (activateListener cacheName st) cacheName
      = entriesOf st cacheName := by
    rw [activateListener_eq_filter]
    exact entriesOf_filter_self st cacheName
  refine ⟨?_, hentries, fun R => by rw [hentries]⟩
  rw [activateListener_eq_filter, cachesHas_filter_self]
  exact hexists

/-- Witness of `activateListener_keeps_current`: after the upgrade to
`nyasabox-cache-v2` that cache still holds its two entries. -/
theorem activateListener_keeps_current_witness :
    cachesHas upgradeStorage "nyasabox-cache-v2" = true ∧
    cachesHas (activateListener "nyasabox-cache-v2" upgradeStorage) "nyasabox-cache-v2"
      = true ∧
    entriesOf (activateListener "nyasabox-cache-v2" upgradeStorage) "nyasabox-cache-v2" =
      [(Request.get "/", freshResponse), (Request.get "/static/log.png", freshResponse)] :=
  have h := activateListener_keeps_current "nyasabox-cache-v2" upgradeStorage (by decide)
  ⟨by decide, h.1, h.2.1.trans (by decide)⟩

/-! ## The `install` listener: claims C7, C8 and C9 -/

/-- C7: after the install listener has succeeded, for every URL `R` of the
preload list the network resolved the fetch of `R` with a response, and looking
`R` up in the worker's cache returns a response equal to that one. -/
theorem installListener_preloads (cacheName : String) (net : Network) (st : CacheStorage)
    (hok : (installListener cacheName net st).succeeded = true) :
    ∀ R ∈ urlsToCache, ∃ resp, net (Request.get R) = FetchResult.resolved (some resp) ∧
      cacheMatch (entriesOf (installListener cacheName net st).storage cacheName)
        (Request.get R) = some resp := by
  cases hf : fetchAll net urlsToCache with
  | none =>
    rw [installListener_of_rejected cacheName net st hf] at hok
    exact absurd hok (by simp)
  | some ps =>
    intro R hR
    have hkeys := fetchAll_keys net urlsToCache ps hf
    have hsound := fetchAll_sound net urlsToCache ps hf
    have hR2 : Request.get R ∈ ps.map Prod.fst := by
      rw [hkeys]
      exact List.mem_map.mpr ⟨R, hR, rfl⟩
    obtain ⟨p, hp, hpk⟩ := List.mem_map.mp hR2
    have hmem : (Request.get R, p.2) ∈ ps := by
      have : p = (Request.get R, p.2) := Prod.ext hpk rfl
      exact this ▸ hp
    refine ⟨p.2, hpk ▸ hsound p hp, ?_⟩
    rw [installListener_of_fetched cacheName net st ps hf]
    simp only []
    rw [entriesOf_updateCache_self _ _ _ (cachesHas_cachesOpen st cacheName)]
    exact cacheMatch_putAll_of_mem net ps _ (Request.get R) p.2 rfl hsound hmem

/-- Witness of `installListener_preloads`: installing on an empty storage with
every fetch answered by `freshResponse` caches the font file. -/
theorem installListener_preloads_witness :
    (installListener CACHE_NAME onlineNet []).succeeded = true ∧
    "/static/troy.woff2" ∈ urlsToCache ∧
    ∃ resp, onlineNet (Request.get "/static/troy.woff2")
        = FetchResult.resolved (some resp) ∧
      cacheMatch (entriesOf (installListener CACHE_NAME onlineNet []).storage CACHE_NAME)
        (Request.get "/static/troy.woff2") = some resp :=
  ⟨by decide, by decide,
    installListener_preloads CACHE_NAME onlineNet [] (by decide) "/static/troy.woff2"
      (by decide)⟩

/-- C8: the install listener is all-or-nothing: when the fetch of any URL of the
preload list rejects the listener fails; when it fails every cache, the worker's
included, has the same entries as before the call; and it succeeds only when
every fetch resolved with a response. -/
theorem installListener_all_or_nothing (cacheName : String) (net : Network)
    (st : CacheStorage) :
    ((∃ R ∈ urlsToCache, net (Request.get R) = FetchResult.rejected) →
      (installListener cacheName net st).succeeded = false) ∧
    ((installListener cacheName net st).succeeded = false →
      ∀ name, entriesOf (installListener cacheName net st).storage name
        = entriesOf st name) ∧
    ((installListener cacheName net st).succeeded = true →
      ∀ R ∈ urlsToCache, ∃ resp,
        net (Request.get R) = FetchResult.resolved (some resp)) := by
  refine ⟨?_, ?_, ?_⟩
  · rintro ⟨R, hR, hrej⟩
    rw [installListener_of_rejected cacheName net st
      (fetchAll_none_of_rejected net urlsToCache R hR hrej)]
  · intro hfail name
    cases hf : fetchAll net urlsToCache with
    | none =>
      rw [installListener_of_rejected cacheName net st hf]
      exact entriesOf_cachesOpen st cacheName name
    | some ps =>
      rw [installListener_of_fetched cacheName net st ps hf] at hfail
      exact absurd hfail (by simp)
  · intro hok R hR
    cases hf : fetchAll net urlsToCache with
    | none =>
      rw [installListener_of_rejected cacheName net st hf] at hok
      exact absurd hok (by simp)
    | some ps =>
      have hkeys := fetchAll_keys net urlsToCache ps hf
      have hR2 : Request.get R ∈ ps.map Prod.fst := by
        rw [hkeys]
        exact List.mem_map.mpr ⟨R, hR, rfl⟩
      obtain ⟨p, hp, hpk⟩ := List.mem_map.mp hR2
      exact ⟨p.2, hpk ▸ fetchAll_sound net urlsToCache ps hf p hp⟩

/-- Witness of `installListener_all_or_nothing`: with only the font file
unreachable the listener fails and the worker's cache keeps its one entry; with
every fetch answered it succeeds. -/
theorem installListener_all_or_nothing_witness :
    (∃ R ∈ urlsToCache, flakyNet (Request.get R) = FetchResult.rejected) ∧
    (installListener CACHE_NAME flakyNet shadowedStorage).succeeded = false ∧
    entriesOf (installListener CACHE_NAME flakyNet shadowedStorage).storage CACHE_NAME
      = [(Request.get "/", freshResponse)] ∧
    (installListener CACHE_NAME onlineNet shadowedStorage).succeeded = true ∧
    (∃ resp, onlineNet (Request.get "/static/log.png")
      = FetchResult.resolved (some resp)) :=
  have hrej : ∃ R ∈ urlsToCache, flakyNet (Request.get R) = FetchResult.rejected :=
    ⟨"/static/troy.woff2", by decide, by decide⟩
  have hbad := installListener_all_or_nothing CACHE_NAME flakyNet shadowedStorage
  have hgood := installListener_all_or_nothing CACHE_NAME onlineNet shadowedStorage
  ⟨hrej, hbad.1 hrej, (hbad.2.1 (hbad.1 hrej) CACHE_NAME).trans (by decide), by decide,
    hgood.2.2 (by decide) "/static/log.png" (by decide)⟩

/-- C9: the install listener is idempotent on the storage: with the same network
answers, running it a second time gives the same result and leaves every cache
as the first run left it; after a successful run each URL of the preload list
is the key of exactly one entry of the worker's cache. -/
theorem installListener_idempotent (cacheName : String) (net : Network) (st : CacheStorage) :
    (installListener cacheName net (installListener cacheName net st).storage).storage
      = (installListener cacheName net st).storage ∧
    (installListener cacheName net (installListener cacheName net st).storage).succeeded
      = (installListener cacheName net st).succeeded ∧
    ((installListener cacheName net st).succeeded = true →
      ∀ R ∈ urlsToCache,
        ((entriesOf
          (installListener cacheName net (installListener cacheName net st).storage).storage
          cacheName).map Prod.fst).count (Request.get R) = 1) := by
  have hopen := cachesHas_cachesOpen st cacheName
  cases hf : fetchAll net urlsToCache with
  | none =>
    have h1 := installListener_of_rejected cacheName net st hf
    have h2 := installListener_of_rejected cacheName net (cachesOpen st cacheName) hf
    rw [cachesOpen_of_has _ _ hopen] at h2
    rw [h1]
    simp only []
    rw [h2]
    simp
  | some ps =>
    have hkeys := fetchAll_keys net urlsToCache ps hf
    have hnd : (ps.map Prod.fst).Nodup := hkeys ▸ urlsToCache_requests_nodup
    have h1 := installListener_of_fetched cacheName net st ps hf
    have hhas : cachesHas (updateCache cacheName
        (fun _ => putAll (entriesOf (cachesOpen st cacheName) cacheName) ps)
        (cachesOpen st cacheName)) cacheName = true := by
      rw [cachesHas_updateCache]
      exact hopen
    have h2 := installListener_of_fetched cacheName net
      (updateCache cacheName
        (fun _ => putAll (entriesOf (cachesOpen st cacheName) cacheName) ps)
        (cachesOpen st cacheName)) ps hf
    rw [cachesOpen_of_has _ _ hhas, entriesOf_updateCache_self _ _ _ hopen,
      putAll_putAll_of_nodup ps _ hnd, updateCache_const_twice] at h2
    rw [h1]
    simp only []
    rw [h2]
    refine ⟨rfl, rfl, ?_⟩
    intro _ R hR
    simp only []
    rw [entriesOf_updateCache_self _ _ _ hopen, putAll_eq_of_nodup ps _ hnd, List.map_append,
      List.count_append]
    have hR2 : Request.get R ∈ urlsToCache.map Request.get :=
      List.mem_map.mpr ⟨R, hR, rfl⟩
    have hzero : List.count (Request.get R) (List.map Prod.fst
        (List.filter (fun e => decide (e.1 ∉ ps.map Prod.fst))
          (entriesOf (cachesOpen st cacheName) cacheName))) = 0 := by
      rw [List.count_eq_zero]
      intro hmem
      obtain ⟨e, he, hek⟩ := List.mem_map.mp hmem
      have := (List.mem_filter.mp he).2
      rw [hek, hkeys] at this
      simp only [hR2, not_true_eq_false, decide_False, Bool.false_eq_true] at this
    rw [hzero, Nat.zero_add, hkeys]
    exact List.count_eq_one_of_mem urlsToCache_requests_nodup hR2

/-- Witness of `installListener_idempotent`: installing twice over
`shadowedStorage` leaves exactly one entry for the root page in the worker's
cache. -/
theorem installListener_idempotent_witness :
    (installListener CACHE_NAME onlineNet shadowedStorage).succeeded = true ∧
    "/" ∈ urlsToCache ∧
    ((entriesOf
      (installListener CACHE_NAME onlineNet
        (installListener CACHE_NAME onlineNet shadowedStorage).storage).storage
      CACHE_NAME).map Prod.fst).count (Request.get "/") = 1 :=
  ⟨by decide, by decide,
    (installListener_idempotent CACHE_NAME onlineNet shadowedStorage).2.2 (by decide) "/"
      (by decide)⟩

end ServiceWorker
